import Mathlib

/-!
Verification development for the `ImageLoader` utility
(`src/imageLoader.js`).

The loader keeps a list of image URLs, a completion counter
(`loadedImages`), a registered total (`totalImages`), a sparse array of
native image handles (`imageElements`), and a URL-to-handle cache
(`imageCache`).  Each preloaded image eventually fires one `load` or
`error` event; the handlers increment the counter, report a rounded
percentage through `onProgress`, and fire `onComplete` when the counter
reaches the total.

Shallow embedding conventions:
* Native image handles are numbered by a fresh counter `nextHandle`;
  `new Image()` allocates the next number.
* The JS object `imageCache` is modelled as an insertion-ordered
  association list with overwrite-on-duplicate, so `Object.keys` is
  `List.map Prod.fst`.
* Callback invocations (`onProgress`, `onComplete`, `onError`) are
  recorded in an event trace instead of calling functions.
* `fetchLog` is instrumentation recording every `new Image()` /
  `img.src = src` fetch that `preloadImage` starts, as (url, index).
* `Math.round(x)` for the nonnegative rational `x = l/t * 100` rounds
  half away from zero, which is `(200*l + t) / (2*t)` in exact natural
  arithmetic.
-/

/-- One recorded callback invocation of the loader. -/
inductive CB where
  | progress (p : Nat)
  | complete (cache : List (String × Nat))
  | error (src : String) (index : Nat)
deriving DecidableEq, Repr

/-- Association-list lookup, modelling JS property read `obj[k]` on an
object used as a dictionary. -/
def lookupAssoc {α β : Type} [DecidableEq α] : List (α × β) → α → Option β
  | [], _ => none
  | (k, v) :: rest, a => if k = a then some v else lookupAssoc rest a

/-- Association-list update, modelling JS property write `obj[k] = v`:
overwrite in place if the key exists, otherwise append (insertion
order, as `Object.keys` enumerates string keys). -/
def setAssoc {α β : Type} [DecidableEq α] : List (α × β) → α → β → List (α × β)
  | [], a, b => [(a, b)]
  | (k, v) :: rest, a, b =>
      if k = a then (a, b) :: rest else (k, v) :: setAssoc rest a b

/-- `Math.round((l / t) * 100)` on exact rationals, for natural `l`, `t`
with `t > 0` (the handlers only run when at least one image is
registered, so `t > 0` at every call site in a valid run). -/
def jsRound100 (l t : Nat) : Nat := (200 * l + t) / (2 * t)

/-- The mutable fields of an `ImageLoader` instance, plus the
`fetchLog` instrumentation and the `nextHandle` allocator for native
image handles. -/
structure LoaderState where
  images : List String
  loadedImages : Nat
  totalImages : Nat
  imageElements : List (Nat × Nat)
  imageCache : List (String × Nat)
  nextHandle : Nat
  fetchLog : List (String × Nat)
deriving DecidableEq, Repr

/-- The constructor (`new ImageLoader({images})`): counters start at 0,
`totalImages = images.length`, caches empty. -/
def initState (urls : List String) : LoaderState :=
  { images := urls
    loadedImages := 0
    totalImages := urls.length
    imageElements := []
    imageCache := []
    nextHandle := 0
    fetchLog := [] }

/-- `preloadImage(src, index)`: allocate a native image handle, store it
at `imageElements[index]`, and start the fetch (recorded in
`fetchLog`).  The load/error handlers are registered; when they run is
decided by the run semantics below. -/
def preloadImage (src : String) (index : Nat) (s : LoaderState) : LoaderState :=
  { s with
    imageElements := setAssoc s.imageElements index s.nextHandle
    nextHandle := s.nextHandle + 1
    fetchLog := s.fetchLog ++ [(src, index)] }

/-- `images.forEach((src, index) => this.preloadImage(src, index))`,
starting at index `start`. -/
def preloadList (l : List String) (start : Nat) (s : LoaderState) : LoaderState :=
  match l with
  | [] => s
  | src :: rest => preloadList rest (start + 1) (preloadImage src start s)

/-- `handleImageLoad(img, src, index)`: increment the counter, cache the
handle under `src`, report progress, and fire `onComplete` with the
cache when the counter reaches the total. -/
def handleImageLoad (img : Nat) (src : String) (s : LoaderState) :
    LoaderState × List CB :=
  let loaded := s.loadedImages + 1
  let cache := setAssoc s.imageCache src img
  let progress := jsRound100 loaded s.totalImages
  ({ s with loadedImages := loaded, imageCache := cache },
   CB.progress progress ::
     (if loaded = s.totalImages then [CB.complete cache] else []))

/-- `handleImageError(src, index)`: increment the counter, report the
error and progress, and fire `onComplete` with the (unchanged) cache
when the counter reaches the total. -/
def handleImageError (src : String) (index : Nat) (s : LoaderState) :
    LoaderState × List CB :=
  let loaded := s.loadedImages + 1
  let progress := jsRound100 loaded s.totalImages
  ({ s with loadedImages := loaded },
   CB.error src index :: CB.progress progress ::
     (if loaded = s.totalImages then [CB.complete s.imageCache] else []))

/-- `preloadAll()`: the zero-image case fires `onProgress(100)` and
`onComplete({})` immediately; otherwise start a preload for every list
entry. -/
def preloadAll (s : LoaderState) : LoaderState × List CB :=
  if s.totalImages = 0 then
    (s, [CB.progress 100, CB.complete []])
  else
    (preloadList s.images 0 s, [])

/-- `addImages(images)`: remember the old total as the start index,
append the new URLs, update the total to the new list length, and start
one preload per new entry. -/
def addImages (imgs : List String) (s : LoaderState) : LoaderState :=
  let startIndex := s.totalImages
  let images := s.images ++ imgs
  preloadList imgs startIndex
    { s with images := images, totalImages := images.length }

/-- `Object.keys(this.imageCache)` in insertion order. -/
def cacheKeys (s : LoaderState) : List String := s.imageCache.map Prod.fst

/-- `getRandomImage()` with the random draw
`Math.floor(Math.random() * cachedUrls.length)` passed in as `k`
(`Math.random() < 1` keeps `k` below the key-list length). -/
def getRandomImage (s : LoaderState) (k : Nat) : Option Nat :=
  let cachedUrls := cacheKeys s
  if cachedUrls.length = 0 then none
  else
    match cachedUrls[k]? with
    | some u => lookupAssoc s.imageCache u
    | none => none

/-- `getRandomImageURL()` with the random draw passed in as `k`. -/
def getRandomImageURL (s : LoaderState) (k : Nat) : Option String :=
  let cachedUrls := cacheKeys s
  if cachedUrls.length = 0 then none
  else cachedUrls[k]?

/-- `isImageLoaded(src)`: `!!this.imageCache[src]` (cached handles are
always truthy). -/
def isImageLoaded (s : LoaderState) (src : String) : Bool :=
  (lookupAssoc s.imageCache src).isSome

/-- `getLoadingProgress()`: 100 when no images are registered, otherwise
the rounded percentage. -/
def getLoadingProgress (s : LoaderState) : Nat :=
  if s.totalImages = 0 then 100
  else jsRound100 s.loadedImages s.totalImages

/-!
Run semantics.  After `preloadAll()` the browser fires, for each
registered image, at most one `load` or `error` event, in any order;
the client may also call `addImages` at any point.  A run is a sequence
of such actions.
-/

/-- One asynchronous action: a registered image at `index` fires its
single event (`success = true` for `load`, `false` for `error`), or the
client calls `addImages urls`. -/
inductive Act where
  | fire (index : Nat) (success : Bool)
  | add (urls : List String)
deriving DecidableEq, Repr

/-- A loader state together with the bookkeeping of which registered
images have already fired (index and outcome) and the accumulated
callback trace. -/
structure Sys where
  st : LoaderState
  fired : List (Nat × Bool)
  trace : List CB
deriving Repr

/-- The event handler registered by `preloadImage` for index `i`: the
`load` handler closes over the created handle and the url, the `error`
handler over the url and index.  The url is `images[i]`, which is
stable because `images` only ever grows at the end. -/
def fireAct (s : LoaderState) (i : Nat) (success : Bool) :
    LoaderState × List CB :=
  let src := (s.images[i]?).getD ""
  if success then
    handleImageLoad ((lookupAssoc s.imageElements i).getD 0) src s
  else
    handleImageError src i s

/-- One step of a run. -/
def stepSys (sys : Sys) : Act → Sys
  | Act.fire i b =>
      let r := fireAct sys.st i b
      { st := r.1, fired := (i, b) :: sys.fired, trace := sys.trace ++ r.2 }
  | Act.add urls => { sys with st := addImages urls sys.st }

/-- A step is valid when a fired event belongs to a registered image
that has not fired before; `addImages` is always allowed. -/
def validStep (sys : Sys) : Act → Bool
  | Act.fire i _ =>
      decide (i < sys.st.totalImages ∧ i ∉ sys.fired.map Prod.fst)
  | Act.add _ => true

/-- Validity of a whole action sequence from a given system state. -/
def validActs (sys : Sys) : List Act → Bool
  | [] => true
  | a :: rest => validStep sys a && validActs (stepSys sys a) rest

/-- Run a sequence of actions. -/
def runSys (sys : Sys) : List Act → Sys
  | [] => sys
  | a :: rest => runSys (stepSys sys a) rest

/-- The system state right after `new ImageLoader({images: urls})`
followed by `preloadAll()`. -/
def sys0 (urls : List String) : Sys :=
  { st := (preloadAll (initState urls)).1
    fired := []
    trace := (preloadAll (initState urls)).2 }

/-- Number of `onComplete` invocations in a trace. -/
def countComplete (l : List CB) : Nat :=
  l.countP fun cb => match cb with | CB.complete _ => true | _ => false

/-- The successive `onProgress` percentages of a trace. -/
def progressList (l : List CB) : List Nat :=
  l.filterMap fun cb => match cb with | CB.progress p => some p | _ => none

/-- Is an action a fired image event (as opposed to an `addImages`
call)? -/
def isFire : Act → Bool
  | Act.fire _ _ => true
  | Act.add _ => false

/-- Number of fetches an action starts: an event starts none, and
`addImages` starts one per entry. -/
def addCount : Act → Nat
  | Act.fire _ _ => 0
  | Act.add urls => urls.length

/-- The fetches `preloadList` records for `l` starting at index
`start`: one per list entry, duplicates included, at consecutive
indices. -/
def fetchEntries (l : List String) (start : Nat) : List (String × Nat) :=
  match l with
  | [] => []
  | src :: rest => (src, start) :: fetchEntries rest (start + 1)

/-- The percentages reported by `n` consecutive events starting from
counter value `loaded` with total `t`. -/
def progressSeq (loaded t : Nat) : Nat → List Nat
  | 0 => []
  | n + 1 => jsRound100 (loaded + 1) t :: progressSeq (loaded + 1) t n

/-! Association-list lemmas. -/

theorem lookupAssoc_setAssoc {α β : Type} [DecidableEq α]
    (l : List (α × β)) (a x : α) (v : β) :
    lookupAssoc (setAssoc l a v) x = if a = x then some v else lookupAssoc l x := by
  induction l with
  | nil => simp [setAssoc, lookupAssoc]
  | cons p rest ih =>
    obtain ⟨k, w⟩ := p
    by_cases hka : k = a
    · subst hka
      by_cases hkx : k = x <;> simp [setAssoc, lookupAssoc, hkx]
    · by_cases hkx : k = x
      · subst hkx
        have hax : ¬ a = k := fun h => hka h.symm
        simp [setAssoc, lookupAssoc, hka, hax]
      · simp [setAssoc, lookupAssoc, hka, hkx, ih]

theorem mem_map_fst_iff_lookupAssoc {α β : Type} [DecidableEq α]
    (l : List (α × β)) (x : α) :
    x ∈ l.map Prod.fst ↔ (lookupAssoc l x).isSome = true := by
  induction l with
  | nil => simp [lookupAssoc]
  | cons p rest ih =>
    obtain ⟨k, w⟩ := p
    by_cases hkx : k = x
    · subst hkx; simp [lookupAssoc]
    · have : ¬ x = k := fun h => hkx h.symm
      simp [lookupAssoc, hkx, this, ih]

/-! `preloadList` touches only `imageElements`, `nextHandle` and
`fetchLog`. -/

theorem preloadList_images (l : List String) :
    ∀ (start : Nat) (s : LoaderState), (preloadList l start s).images = s.images := by
  induction l with
  | nil => intro start s; rfl
  | cons src rest ih => intro start s; simp [preloadList, ih, preloadImage]

theorem preloadList_loadedImages (l : List String) :
    ∀ (start : Nat) (s : LoaderState),
      (preloadList l start s).loadedImages = s.loadedImages := by
  induction l with
  | nil => intro start s; rfl
  | cons src rest ih => intro start s; simp [preloadList, ih, preloadImage]

theorem preloadList_totalImages (l : List String) :
    ∀ (start : Nat) (s : LoaderState),
      (preloadList l start s).totalImages = s.totalImages := by
  induction l with
  | nil => intro start s; rfl
  | cons src rest ih => intro start s; simp [preloadList, ih, preloadImage]

theorem preloadList_imageCache (l : List String) :
    ∀ (start : Nat) (s : LoaderState),
      (preloadList l start s).imageCache = s.imageCache := by
  induction l with
  | nil => intro start s; rfl
  | cons src rest ih => intro start s; simp [preloadList, ih, preloadImage]

theorem preloadList_nextHandle (l : List String) :
    ∀ (start : Nat) (s : LoaderState),
      (preloadList l start s).nextHandle = s.nextHandle + l.length := by
  induction l with
  | nil => intro start s; rfl
  | cons src rest ih =>
    intro start s
    simp [preloadList, ih, preloadImage]
    omega

theorem preloadList_fetchLog (l : List String) :
    ∀ (start : Nat) (s : LoaderState),
      (preloadList l start s).fetchLog = s.fetchLog ++ fetchEntries l start := by
  induction l with
  | nil => intro start s; simp [preloadList, fetchEntries]
  | cons src rest ih =>
    intro start s
    simp [preloadList, ih, preloadImage, fetchEntries]

theorem fetchEntries_length (l : List String) :
    ∀ start : Nat, (fetchEntries l start).length = l.length := by
  induction l with
  | nil => intro start; rfl
  | cons src rest ih => intro start; simp [fetchEntries, ih]

/-! Field values of the initial system `sys0`. -/

theorem sys0_st_images (urls : List String) : (sys0 urls).st.images = urls := by
  simp only [sys0, preloadAll]
  split <;> simp [initState, preloadList_images]

theorem sys0_st_loadedImages (urls : List String) :
    (sys0 urls).st.loadedImages = 0 := by
  simp only [sys0, preloadAll]
  split <;> simp [initState, preloadList_loadedImages]

theorem sys0_st_totalImages (urls : List String) :
    (sys0 urls).st.totalImages = urls.length := by
  simp only [sys0, preloadAll]
  split <;> simp [initState, preloadList_totalImages]

theorem sys0_st_imageCache (urls : List String) :
    (sys0 urls).st.imageCache = [] := by
  simp only [sys0, preloadAll]
  split <;> simp [initState, preloadList_imageCache]

theorem sys0_fired (urls : List String) : (sys0 urls).fired = [] := rfl

theorem sys0_trace (urls : List String) :
    (sys0 urls).trace =
      if urls.length = 0 then [CB.progress 100, CB.complete []] else [] := by
  simp only [sys0, preloadAll, initState]
  split <;> simp_all

/-! What a single fired event does to the state and the trace. -/

theorem fireAct_loadedImages (s : LoaderState) (i : Nat) (b : Bool) :
    (fireAct s i b).1.loadedImages = s.loadedImages + 1 := by
  cases b <;> simp [fireAct, handleImageLoad, handleImageError]

theorem fireAct_totalImages (s : LoaderState) (i : Nat) (b : Bool) :
    (fireAct s i b).1.totalImages = s.totalImages := by
  cases b <;> simp [fireAct, handleImageLoad, handleImageError]

theorem fireAct_images (s : LoaderState) (i : Nat) (b : Bool) :
    (fireAct s i b).1.images = s.images := by
  cases b <;> simp [fireAct, handleImageLoad, handleImageError]

theorem fireAct_imageElements (s : LoaderState) (i : Nat) (b : Bool) :
    (fireAct s i b).1.imageElements = s.imageElements := by
  cases b <;> simp [fireAct, handleImageLoad, handleImageError]

theorem fireAct_nextHandle (s : LoaderState) (i : Nat) (b : Bool) :
    (fireAct s i b).1.nextHandle = s.nextHandle := by
  cases b <;> simp [fireAct, handleImageLoad, handleImageError]

theorem fireAct_fetchLog (s : LoaderState) (i : Nat) (b : Bool) :
    (fireAct s i b).1.fetchLog = s.fetchLog := by
  cases b <;> simp [fireAct, handleImageLoad, handleImageError]

theorem fireAct_imageCache_true (s : LoaderState) (i : Nat) :
    (fireAct s i true).1.imageCache =
      setAssoc s.imageCache ((s.images[i]?).getD "")
        ((lookupAssoc s.imageElements i).getD 0) := by
  simp [fireAct, handleImageLoad]

theorem fireAct_imageCache_false (s : LoaderState) (i : Nat) :
    (fireAct s i false).1.imageCache = s.imageCache := by
  simp [fireAct, handleImageError]

theorem fireAct_progressList (s : LoaderState) (i : Nat) (b : Bool) :
    progressList (fireAct s i b).2 =
      [jsRound100 (s.loadedImages + 1) s.totalImages] := by
  cases b <;> simp only [fireAct, handleImageLoad, handleImageError, progressList] <;>
    split <;> simp [List.filterMap]

theorem fireAct_countComplete (s : LoaderState) (i : Nat) (b : Bool) :
    countComplete (fireAct s i b).2 =
      if s.loadedImages + 1 = s.totalImages then 1 else 0 := by
  by_cases h : s.loadedImages + 1 = s.totalImages <;>
    cases b <;>
      simp [fireAct, handleImageLoad, handleImageError, countComplete, h]

theorem progressList_append (a b : List CB) :
    progressList (a ++ b) = progressList a ++ progressList b := by
  simp [progressList, List.filterMap_append]

theorem countComplete_append (a b : List CB) :
    countComplete (a ++ b) = countComplete a + countComplete b := by
  simp [countComplete, List.countP_append]

/-! `addImages` effects on the state. -/

theorem addImages_images (L : List String) (s : LoaderState) :
    (addImages L s).images = s.images ++ L := by
  simp [addImages, preloadList_images]

theorem addImages_totalImages (L : List String) (s : LoaderState) :
    (addImages L s).totalImages = s.images.length + L.length := by
  simp [addImages, preloadList_totalImages]

theorem addImages_loadedImages (L : List String) (s : LoaderState) :
    (addImages L s).loadedImages = s.loadedImages := by
  simp [addImages, preloadList_loadedImages]

theorem addImages_imageCache (L : List String) (s : LoaderState) :
    (addImages L s).imageCache = s.imageCache := by
  simp [addImages, preloadList_imageCache]

theorem addImages_nextHandle (L : List String) (s : LoaderState) :
    (addImages L s).nextHandle = s.nextHandle + L.length := by
  simp [addImages, preloadList_nextHandle]

theorem addImages_fetchLog (L : List String) (s : LoaderState) :
    (addImages L s).fetchLog = s.fetchLog ++ fetchEntries L s.totalImages := by
  simp [addImages, preloadList_fetchLog]

/-! Handle-allocation and fetch counting over arbitrary runs. -/

theorem run_nextHandle (acts : List Act) :
    ∀ sys : Sys,
      (runSys sys acts).st.nextHandle =
        sys.st.nextHandle + (acts.map addCount).sum := by
  induction acts with
  | nil => intro sys; simp [runSys]
  | cons a rest ih =>
    intro sys
    cases a with
    | fire i b =>
      simp [runSys, stepSys, ih, fireAct_nextHandle, addCount]
    | add urls =>
      simp [runSys, stepSys, ih, addImages_nextHandle, addCount]
      omega

theorem run_fetchLog_length (acts : List Act) :
    ∀ sys : Sys,
      (runSys sys acts).st.fetchLog.length =
        sys.st.fetchLog.length + (acts.map addCount).sum := by
  induction acts with
  | nil => intro sys; simp [runSys]
  | cons a rest ih =>
    intro sys
    cases a with
    | fire i b =>
      simp [runSys, stepSys, ih, fireAct_fetchLog, addCount]
    | add urls =>
      simp [runSys, stepSys, ih, addImages_fetchLog, fetchEntries_length,
        addCount]
      omega

/-! Runs made only of fired events: the counter, the total, the
progress values and the completion count. -/

theorem run_fireOnly_totalImages (acts : List Act) :
    ∀ sys : Sys, acts.all isFire = true →
      (runSys sys acts).st.totalImages = sys.st.totalImages := by
  induction acts with
  | nil => intro sys _; rfl
  | cons a rest ih =>
    intro sys h
    cases a with
    | add urls => simp [isFire] at h
    | fire i b =>
      simp only [List.all_cons, isFire, Bool.true_and] at h
      simp [runSys, stepSys, ih _ h, fireAct_totalImages]

theorem run_fireOnly_loadedImages (acts : List Act) :
    ∀ sys : Sys, acts.all isFire = true →
      (runSys sys acts).st.loadedImages =
        sys.st.loadedImages + acts.length := by
  induction acts with
  | nil => intro sys _; simp [runSys]
  | cons a rest ih =>
    intro sys h
    cases a with
    | add urls => simp [isFire] at h
    | fire i b =>
      simp only [List.all_cons, isFire, Bool.true_and] at h
      simp [runSys, stepSys, ih _ h, fireAct_loadedImages]
      omega

theorem run_fireOnly_progressList (acts : List Act) :
    ∀ sys : Sys, acts.all isFire = true →
      progressList (runSys sys acts).trace =
        progressList sys.trace ++
          progressSeq sys.st.loadedImages sys.st.totalImages acts.length := by
  induction acts with
  | nil => intro sys _; simp [runSys, progressSeq]
  | cons a rest ih =>
    intro sys h
    cases a with
    | add urls => simp [isFire] at h
    | fire i b =>
      simp only [List.all_cons, isFire, Bool.true_and] at h
      simp only [runSys]
      rw [ih _ h]
      simp [stepSys, progressList_append, fireAct_progressList,
        fireAct_loadedImages, fireAct_totalImages, progressSeq,
        List.append_assoc]

theorem run_fireOnly_countComplete (acts : List Act) :
    ∀ sys : Sys, acts.all isFire = true →
      countComplete (runSys sys acts).trace =
        countComplete sys.trace +
          (if sys.st.loadedImages < sys.st.totalImages ∧
              sys.st.totalImages ≤ sys.st.loadedImages + acts.length
           then 1 else 0) := by
  induction acts with
  | nil =>
    intro sys _
    simp only [runSys, List.length_nil]
    split <;> omega
  | cons a rest ih =>
    intro sys h
    cases a with
    | add urls => simp [isFire] at h
    | fire i b =>
      simp only [List.all_cons, isFire, Bool.true_and] at h
      simp only [runSys]
      rw [ih _ h]
      simp only [stepSys, countComplete_append, fireAct_countComplete,
        fireAct_loadedImages, fireAct_totalImages, List.length_cons]
      split_ifs <;> omega

/-- The reachability invariant of a run: the completion counter equals
the number of fired events, the registered total is the list length,
no registered image fires twice, fired indices are registered, and the
cache holds exactly the URLs whose `load` event succeeded. -/
def SysInv (sys : Sys) : Prop :=
  sys.st.loadedImages = sys.fired.length ∧
  sys.st.totalImages = sys.st.images.length ∧
  (sys.fired.map Prod.fst).Nodup ∧
  (∀ p ∈ sys.fired, p.1 < sys.st.images.length) ∧
  (∀ u : String, isImageLoaded sys.st u = true ↔
     ∃ p ∈ sys.fired, p.2 = true ∧ sys.st.images[p.1]? = some u)

theorem inv_sys0 (urls : List String) : SysInv (sys0 urls) := by
  refine ⟨?_, ?_, ?_, ?_, ?_⟩
  · rw [sys0_st_loadedImages, sys0_fired]; rfl
  · rw [sys0_st_totalImages, sys0_st_images]
  · rw [sys0_fired]; exact List.nodup_nil
  · rw [sys0_fired]; intro p hp; cases hp
  · intro u
    rw [sys0_fired]
    simp [isImageLoaded, sys0_st_imageCache, lookupAssoc]

theorem inv_step (sys : Sys) (a : Act) (hv : validStep sys a = true)
    (h : SysInv sys) : SysInv (stepSys sys a) := by
  obtain ⟨h1, h2, h3, h4, h5⟩ := h
  cases a with
  | add urls =>
    refine ⟨?_, ?_, ?_, ?_, ?_⟩
    · simpa [stepSys, addImages_loadedImages] using h1
    · simp [stepSys, addImages_totalImages, addImages_images, h2]
    · exact h3
    · intro p hp
      simp only [stepSys, addImages_images, List.length_append]
      exact Nat.lt_of_lt_of_le (h4 p hp) (Nat.le_add_right _ _)
    · intro u
      have hcache : isImageLoaded (stepSys sys (Act.add urls)).st u =
          isImageLoaded sys.st u := by
        simp [stepSys, isImageLoaded, addImages_imageCache]
      have himg : (stepSys sys (Act.add urls)).st.images =
          sys.st.images ++ urls := by
        simp [stepSys, addImages_images]
      have hfired : (stepSys sys (Act.add urls)).fired = sys.fired := rfl
      rw [hcache, h5 u, hfired, himg]
      constructor
      · rintro ⟨p, hp, hb, heq⟩
        refine ⟨p, hp, hb, ?_⟩
        rw [List.getElem?_append_left (h4 p hp)]
        exact heq
      · rintro ⟨p, hp, hb, heq⟩
        refine ⟨p, hp, hb, ?_⟩
        rw [List.getElem?_append_left (h4 p hp)] at heq
        exact heq
  | fire i b =>
    have hv' : i < sys.st.totalImages ∧ i ∉ sys.fired.map Prod.fst :=
      of_decide_eq_true hv
    obtain ⟨hi, hni⟩ := hv'
    have hil : i < sys.st.images.length := h2 ▸ hi
    have hfired : (stepSys sys (Act.fire i b)).fired = (i, b) :: sys.fired := by
      simp [stepSys]
    have himg : (stepSys sys (Act.fire i b)).st.images = sys.st.images := by
      simp [stepSys, fireAct_images]
    refine ⟨?_, ?_, ?_, ?_, ?_⟩
    · simp [stepSys, fireAct_loadedImages, h1]
    · simp [stepSys, fireAct_totalImages, fireAct_images, h2]
    · rw [hfired]
      simp only [List.map_cons]
      exact List.nodup_cons.mpr ⟨hni, h3⟩
    · intro p hp
      rw [hfired] at hp
      rw [himg]
      rcases List.mem_cons.mp hp with hp | hp
      · subst hp; exact hil
      · exact h4 p hp
    · intro u
      rw [hfired, himg]
      have hsome : sys.st.images[i]? = some (sys.st.images[i]) :=
        List.getElem?_eq_getElem hil
      cases b with
      | false =>
        have hcache : isImageLoaded (stepSys sys (Act.fire i false)).st u =
            isImageLoaded sys.st u := by
          simp [stepSys, isImageLoaded, fireAct_imageCache_false]
        rw [hcache, h5 u]
        constructor
        · rintro ⟨p, hp, hb, heq⟩
          exact ⟨p, List.mem_cons_of_mem _ hp, hb, heq⟩
        · rintro ⟨p, hp, hb, heq⟩
          rcases List.mem_cons.mp hp with hp | hp
          · subst hp; cases hb
          · exact ⟨p, hp, hb, heq⟩
      | true =>
        have hsrc : (sys.st.images[i]?).getD "" = sys.st.images[i] := by
          rw [hsome]; rfl
        have hcache : isImageLoaded (stepSys sys (Act.fire i true)).st u =
            (if sys.st.images[i] = u then
                some ((lookupAssoc sys.st.imageElements i).getD 0)
              else lookupAssoc sys.st.imageCache u).isSome := by
          simp only [stepSys, isImageLoaded, fireAct_imageCache_true,
            lookupAssoc_setAssoc, hsrc]
        rw [hcache]
        by_cases hsu : sys.st.images[i] = u
        · rw [if_pos hsu]
          constructor
          · intro _
            exact ⟨(i, true), List.mem_cons_self _ _, rfl, by rw [hsome, hsu]⟩
          · intro _
            rfl
        · rw [if_neg hsu]
          constructor
          · intro hl
            obtain ⟨p, hp, hb, heq⟩ := (h5 u).mp hl
            exact ⟨p, List.mem_cons_of_mem _ hp, hb, heq⟩
          · rintro ⟨p, hp, hb, heq⟩
            rcases List.mem_cons.mp hp with hp | hp
            · subst hp
              have heq' : sys.st.images[i]? = some u := heq
              rw [hsome] at heq'
              exact absurd (Option.some.inj heq') hsu
            · exact (h5 u).mpr ⟨p, hp, hb, heq⟩

theorem inv_run (acts : List Act) :
    ∀ sys : Sys, SysInv sys → validActs sys acts = true →
      SysInv (runSys sys acts) := by
  induction acts with
  | nil => intro sys h _; exact h
  | cons a rest ih =>
    intro sys h hv
    simp only [validActs, Bool.and_eq_true] at hv
    exact ih _ (inv_step _ _ hv.1 h) hv.2

/-- A list of distinct naturals all below `n` has at most `n`
elements. -/
theorem nodup_lt_length_le (l : List Nat) (n : Nat) (hn : l.Nodup)
    (hb : ∀ x ∈ l, x < n) : l.length ≤ n := by
  have h1 : l.toFinset ⊆ Finset.range n := by
    intro x hx
    rw [List.mem_toFinset] at hx
    exact Finset.mem_range.mpr (hb x hx)
  have h2 := Finset.card_le_card h1
  rw [Finset.card_range, List.toFinset_card_of_nodup hn] at h2
  exact h2

/-! Properties of the rounded percentage and of the progress value
sequence. -/

theorem jsRound100_mono (a b T : Nat) (h : a ≤ b) :
    jsRound100 a T ≤ jsRound100 b T :=
  Nat.div_le_div_right (by omega)

theorem jsRound100_self (N : Nat) (h : 0 < N) : jsRound100 N N = 100 := by
  unfold jsRound100
  rw [show 200 * N + N = N + 100 * (2 * N) by ring]
  rw [Nat.add_mul_div_right _ _ (by omega : 0 < 2 * N)]
  rw [Nat.div_eq_of_lt (by omega)]

theorem progressSeq_mem (T : Nat) (n : Nat) :
    ∀ (l x : Nat), x ∈ progressSeq l T n →
      ∃ j, j < n ∧ x = jsRound100 (l + j + 1) T := by
  induction n with
  | zero => intro l x hx; simp [progressSeq] at hx
  | succ n ih =>
    intro l x hx
    rw [progressSeq] at hx
    rcases List.mem_cons.mp hx with hx | hx
    · exact ⟨0, by omega, by rw [hx]⟩
    · obtain ⟨j, hj, hxe⟩ := ih (l + 1) x hx
      exact ⟨j + 1, by omega, by rw [hxe]; congr 1; omega⟩

theorem progressSeq_pairwise (T n : Nat) :
    ∀ l : Nat, (progressSeq l T n).Pairwise (· ≤ ·) := by
  induction n with
  | zero => intro l; simp [progressSeq]
  | succ n ih =>
    intro l
    rw [progressSeq]
    refine List.Pairwise.cons ?_ (ih (l + 1))
    intro x hx
    obtain ⟨j, hj, hxe⟩ := progressSeq_mem T n (l + 1) x hx
    rw [hxe]
    exact jsRound100_mono _ _ _ (by omega)

theorem progressSeq_head (l T n : Nat) :
    (progressSeq l T (n + 1)).head? = some (jsRound100 (l + 1) T) := rfl

theorem progressSeq_getLast (T : Nat) (n : Nat) :
    ∀ l : Nat,
      (progressSeq l T (n + 1)).getLast? =
        some (jsRound100 (l + n + 1) T) := by
  induction n with
  | zero => intro l; rfl
  | succ n ih =>
    intro l
    rw [progressSeq, progressSeq]
    rw [List.getLast?_cons_cons]
    rw [← progressSeq]
    rw [ih (l + 1)]
    congr 2
    omega

/-- Claim C2: for every state with a positive registered total,
the progress query returns round(loaded/total*100); and every fired
load or error event invokes onProgress exactly once, with exactly that
value computed from the updated counter. -/
theorem C2_progress_formula (s : LoaderState) (i : Nat) (b : Bool)
    (h : 0 < s.totalImages) :
    getLoadingProgress s = jsRound100 s.loadedImages s.totalImages ∧
    progressList (fireAct s i b).2 = [getLoadingProgress (fireAct s i b).1] := by
  have hne : ¬ s.totalImages = 0 := by omega
  constructor
  · rw [getLoadingProgress, if_neg hne]
  · rw [fireAct_progressList]
    rw [getLoadingProgress, fireAct_totalImages, fireAct_loadedImages,
      if_neg hne]

/-- Witness for C2 at a concrete two-image state. -/
theorem C2_progress_formula_witness :
    getLoadingProgress (initState ["a", "b"]) =
      jsRound100 (initState ["a", "b"]).loadedImages
        (initState ["a", "b"]).totalImages ∧
    progressList (fireAct (initState ["a", "b"]) 0 true).2 =
      [getLoadingProgress (fireAct (initState ["a", "b"]) 0 true).1] :=
  C2_progress_formula (initState ["a", "b"]) 0 true (by decide)

/-- Claim C3: with an empty image list, preloadAll immediately reports
100 and completes with an empty cache, creating no image handles (the
state is unchanged); and the progress query returns 100 whenever the
registered total is 0. -/
theorem C3_zero_images :
    (preloadAll (initState [])).2 = [CB.progress 100, CB.complete []] ∧
    (preloadAll (initState [])).1 = initState [] ∧
    ∀ s : LoaderState, s.totalImages = 0 → getLoadingProgress s = 100 := by
  refine ⟨rfl, rfl, ?_⟩
  intro s h
  rw [getLoadingProgress, if_pos h]

/-- Witness for C3 at the empty initial state. -/
theorem C3_zero_images_witness : getLoadingProgress (initState []) = 100 :=
  C3_zero_images.2.2 (initState []) rfl

/-- Claim C4: the error handler reports the failing URL and index,
increments the completion counter and leaves the cache unchanged; and
at every reachable state of a valid run the cache keys are exactly the
URLs of the images whose load event succeeded. -/
theorem C4_cache_only_on_success :
    (∀ (s : LoaderState) (src : String) (i : Nat),
        (handleImageError src i s).1.imageCache = s.imageCache ∧
        (handleImageError src i s).1.loadedImages = s.loadedImages + 1 ∧
        (handleImageError src i s).2.head? = some (CB.error src i)) ∧
    ∀ (urls : List String) (acts : List Act),
      validActs (sys0 urls) acts = true →
      ∀ u : String,
        u ∈ cacheKeys (runSys (sys0 urls) acts).st ↔
          ∃ p ∈ (runSys (sys0 urls) acts).fired, p.2 = true ∧
            (runSys (sys0 urls) acts).st.images[p.1]? = some u := by
  constructor
  · intro s src i
    exact ⟨rfl, rfl, rfl⟩
  · intro urls acts hval u
    have h5 := (inv_run acts (sys0 urls) (inv_sys0 urls) hval).2.2.2.2 u
    rw [cacheKeys, mem_map_fst_iff_lookupAssoc]
    exact h5

/-- Witness for C4 on a one-image run whose load succeeds. -/
theorem C4_cache_only_on_success_witness :
    "a" ∈ cacheKeys (runSys (sys0 ["a"]) [Act.fire 0 true]).st ↔
      ∃ p ∈ (runSys (sys0 ["a"]) [Act.fire 0 true]).fired, p.2 = true ∧
        (runSys (sys0 ["a"]) [Act.fire 0 true]).st.images[p.1]? = some "a" :=
  C4_cache_only_on_success.2 ["a"] [Act.fire 0 true] (by decide) "a"

/-- Claim C5: at every reachable state of a valid run (each registered
image fires at most one event), the completion counter never exceeds
the registered total; addImages steps are included in the runs. -/
theorem C5_loaded_le_total (urls : List String) (acts : List Act)
    (h : validActs (sys0 urls) acts = true) :
    (runSys (sys0 urls) acts).st.loadedImages ≤
      (runSys (sys0 urls) acts).st.totalImages := by
  obtain ⟨h1, h2, h3, h4, _⟩ := inv_run acts (sys0 urls) (inv_sys0 urls) h
  rw [h1, h2]
  have hlen : (runSys (sys0 urls) acts).fired.length =
      ((runSys (sys0 urls) acts).fired.map Prod.fst).length :=
    (List.length_map _ _).symm
  rw [hlen]
  refine nodup_lt_length_le _ _ h3 ?_
  intro x hx
  obtain ⟨p, hp, hpe⟩ := List.mem_map.mp hx
  rw [← hpe]
  exact h4 p hp

/-- Witness for C5 on a run mixing an error, an addImages call and a
load. -/
theorem C5_loaded_le_total_witness :
    (runSys (sys0 ["a"])
        [Act.fire 0 false, Act.add ["b"], Act.fire 1 true]).st.loadedImages ≤
      (runSys (sys0 ["a"])
        [Act.fire 0 false, Act.add ["b"], Act.fire 1 true]).st.totalImages :=
  C5_loaded_le_total ["a"] [Act.fire 0 false, Act.add ["b"], Act.fire 1 true]
    (by decide)

/-- Claim C6: the random getters return null exactly when the cache is
empty; for every in-range random draw the URL getter returns a cache
key and the image getter returns the handle stored under it. -/
theorem C6_random_in_range (s : LoaderState) (k : Nat)
    (hk : s.imageCache = [] ∨ k < (cacheKeys s).length) :
    (getRandomImageURL s k = none ↔ s.imageCache = []) ∧
    (getRandomImage s k = none ↔ s.imageCache = []) ∧
    ∀ u : String, getRandomImageURL s k = some u →
      u ∈ cacheKeys s ∧ getRandomImage s k = lookupAssoc s.imageCache u ∧
        (lookupAssoc s.imageCache u).isSome = true := by
  rcases hk with he | hk
  · have hkeys : cacheKeys s = [] := by rw [cacheKeys, he]; rfl
    have h1 : getRandomImageURL s k = none := by
      simp [getRandomImageURL, hkeys]
    have h2 : getRandomImage s k = none := by
      simp [getRandomImage, hkeys]
    refine ⟨by simp [h1, he], by simp [h2, he], ?_⟩
    intro u hu
    rw [h1] at hu
    cases hu
  · have hpos : 0 < (cacheKeys s).length := by omega
    have hlen : ¬ (cacheKeys s).length = 0 := by omega
    have hne : ¬ s.imageCache = [] := by
      intro he
      rw [cacheKeys, he] at hpos
      simp at hpos
    obtain ⟨u0, hu0⟩ : ∃ u0, (cacheKeys s)[k]? = some u0 :=
      ⟨_, List.getElem?_eq_getElem hk⟩
    have hurl : getRandomImageURL s k = some u0 := by
      simp [getRandomImageURL, hlen, hu0]
    have humem : u0 ∈ cacheKeys s := List.getElem?_mem hu0
    have hlu : (lookupAssoc s.imageCache u0).isSome = true := by
      rw [cacheKeys] at humem
      exact (mem_map_fst_iff_lookupAssoc _ _).mp humem
    have himg : getRandomImage s k = lookupAssoc s.imageCache u0 := by
      simp [getRandomImage, hlen, hu0]
    obtain ⟨v, hv⟩ := Option.isSome_iff_exists.mp hlu
    refine ⟨?_, ?_, ?_⟩
    · rw [hurl]; simp [hne]
    · rw [himg, hv]; simp [hne]
    · intro u hu
      rw [hurl] at hu
      obtain rfl : u0 = u := Option.some.inj hu
      exact ⟨humem, himg, hlu⟩

/-- Witness for C6 at a state whose cache holds one entry, drawing
index 0. -/
theorem C6_random_in_range_witness :
    (getRandomImageURL (runSys (sys0 ["a"]) [Act.fire 0 true]).st 0 = none ↔
        (runSys (sys0 ["a"]) [Act.fire 0 true]).st.imageCache = []) ∧
    (getRandomImage (runSys (sys0 ["a"]) [Act.fire 0 true]).st 0 = none ↔
        (runSys (sys0 ["a"]) [Act.fire 0 true]).st.imageCache = []) ∧
    ∀ u : String,
      getRandomImageURL (runSys (sys0 ["a"]) [Act.fire 0 true]).st 0 = some u →
        u ∈ cacheKeys (runSys (sys0 ["a"]) [Act.fire 0 true]).st ∧
        getRandomImage (runSys (sys0 ["a"]) [Act.fire 0 true]).st 0 =
          lookupAssoc (runSys (sys0 ["a"]) [Act.fire 0 true]).st.imageCache u ∧
        (lookupAssoc (runSys (sys0 ["a"]) [Act.fire 0 true]).st.imageCache
            u).isSome = true :=
  C6_random_in_range (runSys (sys0 ["a"]) [Act.fire 0 true]).st 0
    (Or.inr (by decide))

/-- Claim C7: isImageLoaded is key membership in the cache; over valid
runs this is exactly having a successful load event. -/
theorem C7_isImageLoaded_iff :
    (∀ (s : LoaderState) (src : String),
        isImageLoaded s src = true ↔ src ∈ cacheKeys s) ∧
    ∀ (urls : List String) (acts : List Act),
      validActs (sys0 urls) acts = true →
      ∀ src : String,
        isImageLoaded (runSys (sys0 urls) acts).st src = true ↔
          ∃ p ∈ (runSys (sys0 urls) acts).fired, p.2 = true ∧
            (runSys (sys0 urls) acts).st.images[p.1]? = some src := by
  constructor
  · intro s src
    rw [cacheKeys]
    exact (mem_map_fst_iff_lookupAssoc _ _).symm
  · intro urls acts hval src
    exact (inv_run acts (sys0 urls) (inv_sys0 urls) hval).2.2.2.2 src

/-- Witness for C7 on a one-image run whose load succeeds. -/
theorem C7_isImageLoaded_iff_witness :
    isImageLoaded (runSys (sys0 ["a"]) [Act.fire 0 true]).st "a" = true ↔
      ∃ p ∈ (runSys (sys0 ["a"]) [Act.fire 0 true]).fired, p.2 = true ∧
        (runSys (sys0 ["a"]) [Act.fire 0 true]).st.images[p.1]? = some "a" :=
  C7_isImageLoaded_iff.2 ["a"] [Act.fire 0 true] (by decide) "a"

/-- Claim C8: preloadAll starts exactly one fetch per list entry
(duplicates included, at their own indices) and allocates exactly one
handle per entry; fired events (including failures) start no fetch and
allocate no handle, so failed loads are never retried; over any run the
number of fetches is exactly the number of list entries ever
registered. -/
theorem C8_one_fetch_per_entry :
    (∀ urls : List String,
        (preloadAll (initState urls)).1.fetchLog = fetchEntries urls 0 ∧
        (preloadAll (initState urls)).1.nextHandle = urls.length) ∧
    (∀ (s : LoaderState) (i : Nat) (b : Bool),
        (fireAct s i b).1.fetchLog = s.fetchLog ∧
        (fireAct s i b).1.nextHandle = s.nextHandle) ∧
    ∀ (sys : Sys) (acts : List Act),
      (runSys sys acts).st.fetchLog.length =
        sys.st.fetchLog.length + (acts.map addCount).sum := by
  refine ⟨?_, fun s i b => ⟨fireAct_fetchLog s i b, fireAct_nextHandle s i b⟩,
    fun sys acts => run_fetchLog_length acts sys⟩
  intro urls
  rw [preloadAll]
  split
  · rename_i h
    have h0 : urls.length = 0 := by simpa [initState] using h
    have h1 : urls = [] := List.length_eq_zero.mp h0
    subst h1
    exact ⟨rfl, rfl⟩
  · constructor
    · rw [preloadList_fetchLog]
      simp [initState]
    · rw [preloadList_nextHandle]
      simp [initState]

/-- Claim C9: over a run of a single preloadAll on N > 0 images with no
addImages calls, in which every image fires exactly one event, the
reported percentages are the canonical sequence round(k/N*100) for
k = 1..N; in particular they are monotonically non-decreasing, start at
round(1/N*100) and end at 100. -/
theorem C9_progress_monotone (urls : List String) (acts : List Act)
    (hN : 0 < urls.length) (hfo : acts.all isFire = true)
    (_hval : validActs (sys0 urls) acts = true)
    (hlen : acts.length = urls.length) :
    progressList (runSys (sys0 urls) acts).trace =
      progressSeq 0 urls.length urls.length ∧
    (progressList (runSys (sys0 urls) acts).trace).Pairwise (· ≤ ·) ∧
    (progressList (runSys (sys0 urls) acts).trace).head? =
      some (jsRound100 1 urls.length) ∧
    (progressList (runSys (sys0 urls) acts).trace).getLast? = some 100 := by
  have htr : progressList (runSys (sys0 urls) acts).trace =
      progressSeq 0 urls.length urls.length := by
    rw [run_fireOnly_progressList _ _ hfo, sys0_trace,
      if_neg (by omega : ¬ urls.length = 0), sys0_st_loadedImages,
      sys0_st_totalImages, hlen]
    rfl
  obtain ⟨n, hn⟩ : ∃ n, urls.length = n + 1 := ⟨urls.length - 1, by omega⟩
  refine ⟨htr, ?_, ?_, ?_⟩
  · rw [htr]
    exact progressSeq_pairwise _ _ _
  · rw [htr, hn]
    exact progressSeq_head 0 _ n
  · rw [htr, hn, progressSeq_getLast]
    rw [show 0 + n + 1 = n + 1 by omega, jsRound100_self (n + 1) (by omega)]

/-- Witness for C9 on a three-image run with one failure. -/
theorem C9_progress_monotone_witness :
    progressList (runSys (sys0 ["a", "b", "c"])
        [Act.fire 0 true, Act.fire 1 false, Act.fire 2 true]).trace =
      progressSeq 0 (["a", "b", "c"] : List String).length
        (["a", "b", "c"] : List String).length ∧
    (progressList (runSys (sys0 ["a", "b", "c"])
        [Act.fire 0 true, Act.fire 1 false,
          Act.fire 2 true]).trace).Pairwise (· ≤ ·) ∧
    (progressList (runSys (sys0 ["a", "b", "c"])
        [Act.fire 0 true, Act.fire 1 false, Act.fire 2 true]).trace).head? =
      some (jsRound100 1 (["a", "b", "c"] : List String).length) ∧
    (progressList (runSys (sys0 ["a", "b", "c"])
        [Act.fire 0 true, Act.fire 1 false, Act.fire 2 true]).trace).getLast? =
      some 100 :=
  C9_progress_monotone ["a", "b", "c"]
    [Act.fire 0 true, Act.fire 1 false, Act.fire 2 true]
    (by decide) (by decide) (by decide) (by decide)

/-- Claim C1 fails as stated: in the run that preloads one image, sees
it load, then adds a second image which also loads, every preloaded
image fires exactly one load event, yet onComplete is invoked twice
(once per time the counter catches up with the total), not exactly
once. -/
theorem C1_counterexample :
    validActs (sys0 ["a"])
      [Act.fire 0 true, Act.add ["b"], Act.fire 1 true] = true ∧
    ¬ countComplete (runSys (sys0 ["a"])
        [Act.fire 0 true, Act.add ["b"], Act.fire 1 true]).trace = 1 ∧
    countComplete (runSys (sys0 ["a"])
        [Act.fire 0 true, Act.add ["b"], Act.fire 1 true]).trace = 2 :=
  ⟨rfl, by decide, rfl⟩

/-- Claim C1 as amended: over a run of a single preloadAll on N > 0
images with no addImages calls, in which every image fires exactly one
load or error event, after the first m events the counter is m and
onComplete has been invoked exactly once if m = N and never if m < N:
it fires exactly once, precisely at the event where the count reaches
N. -/
theorem C1_complete_once (urls : List String) (acts : List Act) (m : Nat)
    (hN : 0 < urls.length) (hfo : acts.all isFire = true)
    (_hval : validActs (sys0 urls) acts = true)
    (hlen : acts.length = urls.length) (hm : m ≤ acts.length) :
    (runSys (sys0 urls) (acts.take m)).st.loadedImages = m ∧
    countComplete (runSys (sys0 urls) (acts.take m)).trace =
      if m = urls.length then 1 else 0 := by
  have hfo' : (acts.take m).all isFire = true := by
    rw [List.all_eq_true] at hfo ⊢
    intro x hx
    exact hfo x (List.take_subset _ _ hx)
  have hlen' : (acts.take m).length = m := by
    rw [List.length_take]
    omega
  constructor
  · rw [run_fireOnly_loadedImages _ _ hfo', sys0_st_loadedImages, hlen']
    omega
  · rw [run_fireOnly_countComplete _ _ hfo', sys0_trace,
      if_neg (by omega : ¬ urls.length = 0), sys0_st_loadedImages,
      sys0_st_totalImages, hlen']
    rw [show countComplete [] = 0 from rfl]
    split_ifs <;> omega

/-- Witness for the amended C1 on a two-image run taken to its end. -/
theorem C1_complete_once_witness :
    (runSys (sys0 ["a", "b"])
        ([Act.fire 0 true, Act.fire 1 false].take 2)).st.loadedImages = 2 ∧
    countComplete (runSys (sys0 ["a", "b"])
        ([Act.fire 0 true, Act.fire 1 false].take 2)).trace =
      if 2 = (["a", "b"] : List String).length then 1 else 0 :=
  C1_complete_once ["a", "b"] [Act.fire 0 true, Act.fire 1 false] 2
    (by decide) (by decide) (by decide) (by decide) (by decide)

/-- Claim C10: addImages grows the total by the length of the new list,
appends the new URLs, starts exactly one preload per new entry at
consecutive indices beginning at the old total, and leaves the counter
and the cache unchanged (in every state where the total equals the list
length, which holds at every reachable state). -/
theorem C10_addImages_effects (s : LoaderState) (L : List String)
    (h : s.totalImages = s.images.length) :
    (addImages L s).totalImages = s.totalImages + L.length ∧
    (addImages L s).images = s.images ++ L ∧
    (addImages L s).loadedImages = s.loadedImages ∧
    (addImages L s).imageCache = s.imageCache ∧
    (addImages L s).fetchLog = s.fetchLog ++ fetchEntries L s.totalImages ∧
    (addImages L s).nextHandle = s.nextHandle + L.length := by
  refine ⟨?_, addImages_images L s, addImages_loadedImages L s,
    addImages_imageCache L s, addImages_fetchLog L s,
    addImages_nextHandle L s⟩
  rw [addImages_totalImages, h]

/-- Witness for C10, adding two images to a one-image loader. -/
theorem C10_addImages_effects_witness :
    (addImages ["b", "c"] (initState ["a"])).totalImages =
      (initState ["a"]).totalImages + (["b", "c"] : List String).length ∧
    (addImages ["b", "c"] (initState ["a"])).images =
      (initState ["a"]).images ++ ["b", "c"] ∧
    (addImages ["b", "c"] (initState ["a"])).loadedImages =
      (initState ["a"]).loadedImages ∧
    (addImages ["b", "c"] (initState ["a"])).imageCache =
      (initState ["a"]).imageCache ∧
    (addImages ["b", "c"] (initState ["a"])).fetchLog =
      (initState ["a"]).fetchLog ++
        fetchEntries ["b", "c"] (initState ["a"]).totalImages ∧
    (addImages ["b", "c"] (initState ["a"])).nextHandle =
      (initState ["a"]).nextHandle + (["b", "c"] : List String).length :=
  C10_addImages_effects (initState ["a"]) ["b", "c"] rfl
